import Mathlib

/-!
Verification of the contribution-dashboard core (`performance_dashboard.py`).

The file shallowly embeds the data model and the pure transformations of the
dashboard: the CSV row parser (`load_and_process_data`), ISO-week/month
bucketing (`isocalendar`), the contribution classifier (`_net_flag` and the
type/exemption constants), the per-member summary
(`calculate_contribution_summary`), the whole-population net total
(`total_net_contributions`), the share percentage (`display_ucs_share`),
the weekly pivot column ordering (`compute_yearly_weekly_matrix`), the
per-month fetch aggregation (`fetch_months_csv`) and the append-with-dedup
dataset update (`main`).  Theorems at the end settle the specification
claims against these definitions.
-/

namespace PerfDash

/-! ### Calendar arithmetic

`load_and_process_data` derives week buckets with
`df["end_date"].dt.isocalendar()`; the definitions below embed the
ISO-8601 week-date algorithm (proleptic Gregorian calendar, rata die day
numbers with 0001-01-01 = day 1, a Monday) that this library call computes. -/

structure Date where
  year : Nat
  month : Nat
  day : Nat
deriving DecidableEq

def isLeapYear (y : Nat) : Bool :=
  (y % 4 == 0 && y % 100 != 0) || y % 400 == 0

def daysInMonth (y m : Nat) : Nat :=
  match m with
  | 2 => if isLeapYear y then 29 else 28
  | 4 | 6 | 9 | 11 => 30
  | _ => 31

/-- Cumulative day count before month `m` of year `y`. -/
def daysBeforeMonth (y m : Nat) : Nat :=
  let k : Nat := if isLeapYear y then 1 else 0
  match m with
  | 1 => 0
  | 2 => 31
  | 3 => 59 + k
  | 4 => 90 + k
  | 5 => 120 + k
  | 6 => 151 + k
  | 7 => 181 + k
  | 8 => 212 + k
  | 9 => 243 + k
  | 10 => 273 + k
  | 11 => 304 + k
  | _ => 334 + k

def dayOfYear (d : Date) : Nat := daysBeforeMonth d.year d.month + d.day

/-- Days in all years strictly before year `y` (proleptic Gregorian). -/
def daysBeforeYear (y : Nat) : Nat :=
  365 * (y - 1) + (y - 1) / 4 - (y - 1) / 100 + (y - 1) / 400

/-- Rata die day number: 0001-01-01 is day 1 (a Monday). -/
def rataDie (d : Date) : Nat := daysBeforeYear d.year + dayOfYear d

/-- ISO weekday: Monday = 1 … Sunday = 7. -/
def isoWeekday (d : Date) : Nat := (rataDie d - 1) % 7 + 1

/-- Number of ISO weeks in year `y`: 53 when Jan 1 is a Thursday, or a
Wednesday of a leap year; otherwise 52. -/
def isoWeeksInYear (y : Nat) : Nat :=
  if daysBeforeYear y % 7 + 1 == 4 || (isLeapYear y && daysBeforeYear y % 7 + 1 == 3)
  then 53 else 52

/-- ISO-8601 (iso year, iso week) of a date: the semantics of the
`dt.isocalendar()` call at line 126 of the source.  The raw week number
`(dayOfYear + 10 - weekday) / 7` is 0 for days belonging to the last week
of the previous ISO year, and exceeds the year's week count for late
December days belonging to week 1 of the next ISO year. -/
def isoWeekPair (d : Date) : Nat × Nat :=
  if (dayOfYear d + 10 - isoWeekday d) / 7 = 0 then
    (d.year - 1, isoWeeksInYear (d.year - 1))
  else if isoWeeksInYear d.year < (dayOfYear d + 10 - isoWeekday d) / 7 then
    (d.year + 1, 1)
  else (d.year, (dayOfYear d + 10 - isoWeekday d) / 7)

/-- `str.zfill(2)`: left-pad with `"0"` to length 2. -/
def zfill2 (n : Nat) : String :=
  let s := toString n
  if s.length < 2 then "0" ++ s else s

/-- The `year_week` column: `iso_year + "-W" + iso_week zero-padded to 2`
(source line 127). -/
def yearWeekKey (d : Date) : String :=
  toString (isoWeekPair d).1 ++ "-W" ++ zfill2 (isoWeekPair d).2

/-- The `month` column: `end_date.dt.to_period("M")` rendered `"YYYY-MM"`
(source line 129). -/
def monthKey (d : Date) : String :=
  toString d.year ++ "-" ++ zfill2 d.month

/-- Rata die of the Monday of ISO week `w` of ISO year `y`: the semantics of
`pd.to_datetime(year + "-W" + week + "-1", format="%G-W%V-%u")`
(source lines 353-356).  Week 1 is the week containing January 4. -/
def mondayOfISOWeek (y w : Nat) : Nat :=
  let jan4 := daysBeforeYear y + 4
  let wd := (jan4 - 1) % 7 + 1
  jan4 - (wd - 1) + 7 * (w - 1)

def Date.valid (d : Date) : Prop :=
  1 ≤ d.year ∧ 1 ≤ d.month ∧ d.month ≤ 12 ∧ 1 ≤ d.day ∧ d.day ≤ daysInMonth d.year d.month

instance (d : Date) : Decidable d.valid :=
  inferInstanceAs (Decidable (_ ∧ _ ∧ _ ∧ _ ∧ _))

/-! ### Constants and team definitions (source lines 31-58) -/

def ORIGINAL_CASE_TEAM : List String :=
  ["ashish johnjeyaraj", "Basavaraj Awati", "K SAI KOUSHIK", "Kaustubh SINGH",
   "Manoj KUMAR R", "Mohammed Misba RIZVI", "Nagaraj JOTHI",
   "Paluvadi Venkata SAI UJWALA", "Pranam M", "Rajath Y C", "Shachi JAIN",
   "Shikha SINHA", "Shreesha J", "Sukanya DODDAGOUDAR"]

/-- Python `str.lower()` on the ASCII names and tags this program handles. -/
def strLower (s : String) : String := ⟨s.data.map Char.toLower⟩

def UCS_BANGALORE_TEAM_LOWER : List String := ORIGINAL_CASE_TEAM.map strLower

def CONTRIBUTION_RECORD_TYPES : List String := ["WO", "PTR", "TR"]

def EXEMPTION_KEYWORDS : List String := ["atc-mon", "atc-fup", "atc-ign", "atc-sup"]

/-! ### Tag exemption matching

`EXEMPTION_REGEX = '|'.join(EXEMPTION_KEYWORDS)` and
`df['tags'].str.contains(EXEMPTION_REGEX)`: the keywords contain no regex
metacharacters, so the regex matches exactly when some keyword occurs as a
substring of the tags string. -/

/-- `needle` occurs as a contiguous substring of `hay`. -/
def containsSub (needle : List Char) : List Char → Bool
  | [] => needle.isEmpty
  | a :: t => needle.isPrefixOf (a :: t) || containsSub needle t

def hasExemptTag (tags : String) : Bool :=
  EXEMPTION_KEYWORDS.any fun k => containsSub k.data tags.data

/-! ### Parsed rows and processed records (`load_and_process_data`) -/

/-- One row of the 17-column headerless CSV after `pd.read_csv`:
`None` fields model missing values (`NaN`), and `Option Date` on the
timestamp columns models `pd.to_datetime(..., errors='coerce')` returning
`NaT` on an unparsable value. -/
structure RawRow where
  recordId : String
  recType : String
  severity : String
  assignee : Option String
  location : String
  transfers : String
  tags : Option String
  startDate : Option Date
  endDate : Option Date
  durationDays : String
  title : String
  entity1Code : String
  entity1Name : String
  entity2Code : String
  entity2Name : String
  entity3Code : String
  entity3Name : String
deriving DecidableEq

/-- One row of the processed frame returned by `load_and_process_data`:
renamed columns, normalized assignee/tags, parsed timestamps and the
derived `year_week`, `year`, `month` and `Team` columns. -/
structure Record where
  recordId : String
  recType : String
  severity : String
  teamMember : String
  location : String
  transfers : String
  tags : String
  startDate : Date
  endDate : Date
  durationDays : String
  title : String
  entity1Code : String
  entity1Name : String
  entity2Code : String
  entity2Name : String
  entity3Code : String
  entity3Name : String
  yearWeek : String
  year : Nat
  month : String
  team : String
deriving DecidableEq

/-- Field normalization of source lines 120-133: lowercase assignee with
`"unassigned"` sentinel, lowercase tags defaulting to `""`, week/month
buckets keyed off the end date, and the `Team` classification. -/
def mkRecord (row : RawRow) (s e : Date) : Record :=
  let tm := (row.assignee.map strLower).getD "unassigned"
  { recordId := row.recordId
    recType := row.recType
    severity := row.severity
    teamMember := tm
    location := row.location
    transfers := row.transfers
    tags := (row.tags.map strLower).getD ""
    startDate := s
    endDate := e
    durationDays := row.durationDays
    title := row.title
    entity1Code := row.entity1Code
    entity1Name := row.entity1Name
    entity2Code := row.entity2Code
    entity2Name := row.entity2Name
    entity3Code := row.entity3Code
    entity3Name := row.entity3Name
    yearWeek := yearWeekKey e
    year := e.year
    month := monthKey e
    team := if UCS_BANGALORE_TEAM_LOWER.contains tm then "UCS Bangalore" else "Other Teams" }

/-- One row's fate under
`df.dropna(subset=["start_date", "end_date"])` and the transforms: the row
survives (as a processed record) exactly when both timestamps parsed. -/
def processRow (row : RawRow) : Option Record :=
  match row.startDate, row.endDate with
  | some s, some e => some (mkRecord row s e)
  | _, _ => none

def processRows (rows : List RawRow) : List Record :=
  rows.filterMap processRow

/-- `load_and_process_data` (source lines 110-137).  `parseCsv` abstracts
`pd.read_csv` on the whole text; the result pairs the list of reported
errors with the processed records.  An empty payload short-circuits, a
parse failure is reported once and yields no rows. -/
def loadAndProcessData (parseCsv : String → Except String (List RawRow)) (raw : String) :
    List String × List Record :=
  if raw = "" then ([], [])
  else
    match parseCsv raw with
    | Except.ok rows => ([], processRows rows)
    | Except.error e => (["Error parsing data: " ++ e], [])

/-! ### Per-month fetch aggregation (`fetch_months_csv`, source lines 95-105) -/

/-- The accumulation loop of `fetch_months_csv`: `txt = fetch_month_csv(...);
if txt: parts.append(txt)` — a month contributes exactly when its fetch
returned a value that is truthy, i.e. neither `None` nor `""`. -/
def fetchLoop (fetchMonth : Nat → Nat → Option String) (year : Nat) :
    List Nat → List String → List String
  | [], parts => parts
  | m :: ms, parts =>
    match fetchMonth year m with
    | some txt =>
        if txt = "" then fetchLoop fetchMonth year ms parts
        else fetchLoop fetchMonth year ms (parts ++ [txt])
    | none => fetchLoop fetchMonth year ms parts

def fetchMonthsCsv (fetchMonth : Nat → Nat → Option String) (year : Nat)
    (months : List Nat) : Option String :=
  if fetchLoop fetchMonth year months [] = [] then none
  else some (String.intercalate "\n" (fetchLoop fetchMonth year months []))

/-- Python truthiness of one month's fetch result: `None` and `""` are
falsy and contribute nothing; any other text is kept. -/
def keepTruthy (o : Option String) : Option String :=
  match o with
  | some txt => if txt = "" then none else some txt
  | none => none

/-! ### Contribution classifier and summaries -/

def isContribution (r : Record) : Bool :=
  CONTRIBUTION_RECORD_TYPES.contains r.recType

/-- The condition of `_net_flag`: contribution-typed and not tag-exempted. -/
def netP (r : Record) : Bool := isContribution r && !hasExemptTag r.tags

/-- `_net_flag` (source lines 307-311): 1 if the record counts toward net
contributions, else 0. -/
def netFlag (r : Record) : Nat :=
  if isContribution r && !hasExemptTag r.tags then 1 else 0

/-- `df_contributions.groupby('Team Member').size()` evaluated at the
case-folded key `k` (source lines 143-144). -/
def grossCount (rs : List Record) (k : String) : Nat :=
  ((rs.filter isContribution).filter fun r => r.teamMember == k).length

/-- Group size of the tag-exempted subset of the contribution rows
(source line 145). -/
def exemptCount (rs : List Record) (k : String) : Nat :=
  (((rs.filter isContribution).filter fun r => hasExemptTag r.tags).filter
    fun r => r.teamMember == k).length

structure SummaryRow where
  member : String
  gross : Nat
  exempted : Nat
  net : Int
deriving DecidableEq

/-- `calculate_contribution_summary` (source lines 142-151): one row per
entry of `team_members`, keyed through `index.str.lower()`, with absent
groups zero-filled by `fillna(0)` and `Net = Gross - Exempted`. -/
def calculateContributionSummary (rs : List Record) (teamMembers : List String) :
    List SummaryRow :=
  teamMembers.map fun m =>
    { member := m
      gross := grossCount rs (strLower m)
      exempted := exemptCount rs (strLower m)
      net := (grossCount rs (strLower m) : Int) - (exemptCount rs (strLower m) : Int) }

/-- `total_net_contributions` (source lines 153-159): gross size of the
contribution-typed slice minus its tag-exempted count. -/
def totalNetContributions (rs : List Record) : Int :=
  if rs.isEmpty then 0
  else ((rs.filter isContribution).length : Int)
    - (((rs.filter isContribution).countP fun r => hasExemptTag r.tags : Nat) : Int)

/-- `int(ucs_summary['Net Contributions'].sum())` (source lines 282, 286). -/
def summaryNetSum (summary : List SummaryRow) : Int :=
  (summary.map SummaryRow.net).sum

/-- The share metric of `display_ucs_share` (source lines 284, 288):
`net / total * 100` guarded by `total > 0`, else `0`. -/
def ucsShare (ucsNet allNet : Int) : ℚ :=
  if 0 < allNet then (ucsNet : ℚ) / (allNet : ℚ) * 100 else 0

/-! ### Weekly pivot column order (`compute_yearly_weekly_matrix`) -/

/-- `int(...)` on a digit string (via `astype(int)` at lines 351-352). -/
def charsToNat (cs : List Char) : Nat :=
  cs.foldl (fun acc c => acc * 10 + (c.toNat - 48)) 0

/-- The `week_start` anchor of source lines 353-356: parse the first four
characters as the ISO year and the last two as the ISO week, and take the
Monday of that ISO week. -/
def weekAnchor (s : String) : Nat :=
  mondayOfISOWeek (charsToNat (s.take 4).data) (charsToNat (s.takeRight 2).data)

/-- Accumulator loop for `drop_duplicates()`: keep a value the first time it
is seen, drop later occurrences. -/
def dropDupsAux {α : Type} [DecidableEq α] (seen : List α) : List α → List α
  | [] => []
  | a :: t => if seen.contains a then dropDupsAux seen t else a :: dropDupsAux (a :: seen) t

/-- `drop_duplicates()` keeping the first occurrence of each distinct value. -/
def dropDups {α : Type} [DecidableEq α] (l : List α) : List α := dropDupsAux [] l

/-- The column axis of the member × week pivot in
`compute_yearly_weekly_matrix` (source lines 337-362): the distinct
`year_week` keys of the UCS Bangalore rows of the selected calendar year,
ordered by the `week_start` anchor (for the zero-padded `YYYY-Www` keys
this coincides with the sorted column index the pivot produces). -/
def weeklyMatrixColumns (rs : List Record) (y : Nat) : List String :=
  let dfYear := rs.filter fun r => r.year == y && r.team == "UCS Bangalore"
  let keys := dropDups (dfYear.map Record.yearWeek)
  List.insertionSort (fun a b => weekAnchor a ≤ weekAnchor b) keys

/-! ### Dataset append (`main`, source lines 556-564) -/

/-- The append branch of `main`:
`pd.concat([df_full, new_df]).drop_duplicates()`. -/
def appendFetch (old new : List Record) : List Record :=
  dropDups (old ++ new)

/-- The UCS net count of `main` + `display_ucs_share` (source lines 282,
592-597): the summary is computed over the slice with `Team ==
'UCS Bangalore'` against the fixed roster, and its net column is summed. -/
def ucsNetOf (rs : List Record) : Int :=
  summaryNetSum
    (calculateContributionSummary (rs.filter fun r => r.team == "UCS Bangalore")
      ORIGINAL_CASE_TEAM)

/-! ### Concrete sample data for the claims' worked examples -/

def blankRow : RawRow :=
  { recordId := "", recType := "", severity := "", assignee := none, location := ""
    transfers := "", tags := none, startDate := none, endDate := none
    durationDays := "", title := "", entity1Code := "", entity1Name := ""
    entity2Code := "", entity2Name := "", entity3Code := "", entity3Name := "" }

/-- A contribution-typed row assigned to a roster member. -/
def sampleUcsRow : RawRow :=
  { blankRow with recType := "WO", assignee := some "Pranam M" }

/-- Three records of calendar year 2024 whose week keys are
`2024-W52`, `2025-W01` and `2024-W05`. -/
def c5sample : List Record :=
  [mkRecord sampleUcsRow ⟨2024, 12, 27⟩ ⟨2024, 12, 27⟩,
   mkRecord sampleUcsRow ⟨2024, 12, 30⟩ ⟨2024, 12, 30⟩,
   mkRecord sampleUcsRow ⟨2024, 2, 1⟩ ⟨2024, 2, 1⟩]

def recA : Record := mkRecord sampleUcsRow ⟨2024, 1, 1⟩ ⟨2024, 1, 2⟩

def recB : Record := mkRecord { blankRow with recordId := "X2" } ⟨2024, 1, 1⟩ ⟨2024, 1, 3⟩

/-! ### Helper lemmas on lists and counting -/

theorem countP_congr_mem {α : Type} {l : List α} {p q : α → Bool}
    (h : ∀ a ∈ l, p a = q a) : l.countP p = l.countP q := by
  induction l with
  | nil => rfl
  | cons a t ih =>
      simp only [List.countP_cons, h a (by simp),
        ih fun b hb => h b (List.mem_cons_of_mem a hb)]

theorem countP_split {α : Type} (l : List α) (p q : α → Bool) :
    l.countP p = l.countP (fun a => p a && q a) + l.countP (fun a => p a && !q a) := by
  induction l with
  | nil => rfl
  | cons a t ih =>
      simp only [List.countP_cons]
      cases hp : p a <;> cases hq : q a <;> simp [hp, hq] <;> omega

theorem sum_map_add {α : Type} (f g : α → Nat) (ks : List α) :
    (ks.map fun k => f k + g k).sum = (ks.map f).sum + (ks.map g).sum := by
  induction ks with
  | nil => rfl
  | cons k t ih => simp only [List.map_cons, List.sum_cons, ih]; omega

theorem sum_indicator (x : String) :
    ∀ ks : List String, ks.Nodup →
      (ks.map fun k => if x == k then 1 else 0).sum = if ks.contains x then 1 else 0
  | [], _ => by simp [List.contains]
  | k :: ks, h => by
      have hk : k ∉ ks := (List.nodup_cons.mp h).1
      have ih := sum_indicator x ks (List.nodup_cons.mp h).2
      simp only [List.map_cons, List.sum_cons, ih]
      by_cases hxk : x = k
      · subst hxk
        simp [List.contains, hk]
      · have hbk : (x == k) = false := by simpa using hxk
        simp only [hbk, if_false]
        simp [List.contains, List.mem_cons, hxk]

theorem sum_group_sizes {α : Type} (p : α → Bool) (key : α → String)
    (ks : List String) (hks : ks.Nodup) :
    ∀ l : List α,
      (ks.map fun k => l.countP fun a => p a && key a == k).sum
        = l.countP fun a => p a && ks.contains (key a)
  | [] => by
      simp only [List.countP_nil]
      exact List.sum_eq_zero (by simp)
  | a :: t => by
      have ih := sum_group_sizes p key ks hks t
      simp only [List.countP_cons]
      have hsplit :
          (ks.map fun k =>
              (t.countP fun b => p b && key b == k) + if p a && key a == k then 1 else 0).sum
            = (ks.map fun k => t.countP fun b => p b && key b == k).sum
              + (ks.map fun k => if p a && key a == k then 1 else 0).sum :=
        sum_map_add _ _ ks
      rw [hsplit, ih]
      cases hpa : p a
      · simp
      · have : (ks.map fun k => if key a == k then 1 else 0).sum
            = if ks.contains (key a) then 1 else 0 := sum_indicator (key a) ks hks
        simp only [hpa, Bool.true_and]
        rw [this]

theorem natListSumCast (l : List Nat) :
    ((l.sum : Nat) : Int) = (l.map (Nat.cast : Nat → Int)).sum := by
  induction l with
  | nil => rfl
  | cons a t ih => simp [ih]

/-! ### Substring matching is exactly regex-alternation matching -/

theorem containsSub_iff (n : List Char) : ∀ h : List Char, containsSub n h = true ↔ n <:+: h
  | [] => by
      simp only [containsSub, List.isEmpty_iff, List.infix_nil]
  | a :: t => by
      simp only [containsSub, Bool.or_eq_true, List.isPrefixOf_iff_prefix,
        containsSub_iff n t, List.infix_cons_iff]

theorem hasExemptTag_iff (tags : String) :
    hasExemptTag tags = true ↔ ∃ k ∈ EXEMPTION_KEYWORDS, k.data <:+: tags.data := by
  simp only [hasExemptTag, List.any_eq_true, containsSub_iff]

theorem isContribution_iff (r : Record) :
    isContribution r = true ↔ r.recType ∈ CONTRIBUTION_RECORD_TYPES := by
  simp [isContribution, List.contains]

/-! ### Lemmas about `dropDups` -/

theorem mem_dropDupsAux {α : Type} [DecidableEq α] (x : α) :
    ∀ (l seen : List α), x ∈ dropDupsAux seen l ↔ x ∈ l ∧ x ∉ seen
  | [], seen => by simp [dropDupsAux]
  | a :: t, seen => by
      rw [dropDupsAux]
      by_cases ha : seen.contains a
      · rw [if_pos ha]
        have hamem : a ∈ seen := by simpa [List.contains] using ha
        rw [mem_dropDupsAux x t seen]
        simp only [List.mem_cons]
        constructor
        · rintro ⟨hx, hns⟩
          exact ⟨Or.inr hx, hns⟩
        · rintro ⟨hx | hx, hns⟩
          · exact absurd (hx ▸ hamem) hns
          · exact ⟨hx, hns⟩
      · rw [if_neg ha]
        rw [List.mem_cons, mem_dropDupsAux x t (a :: seen)]
        simp only [List.mem_cons]
        by_cases hxa : x = a
        · subst hxa
          have : x ∉ seen := by simpa [List.contains] using ha
          simp [this]
        · simp [hxa]

theorem mem_dropDups {α : Type} [DecidableEq α] (x : α) (l : List α) :
    x ∈ dropDups l ↔ x ∈ l := by
  rw [dropDups, mem_dropDupsAux]
  simp

theorem nodup_dropDupsAux {α : Type} [DecidableEq α] :
    ∀ (l seen : List α), (dropDupsAux seen l).Nodup
  | [], seen => by simp [dropDupsAux]
  | a :: t, seen => by
      rw [dropDupsAux]
      by_cases ha : seen.contains a
      · rw [if_pos ha]
        exact nodup_dropDupsAux t seen
      · rw [if_neg ha]
        refine List.nodup_cons.mpr ⟨fun hmem => ?_, nodup_dropDupsAux t (a :: seen)⟩
        have := (mem_dropDupsAux a t (a :: seen)).mp hmem
        exact this.2 (List.mem_cons_self a seen)

theorem nodup_dropDups {α : Type} [DecidableEq α] (l : List α) : (dropDups l).Nodup :=
  nodup_dropDupsAux l []

/-! ### Normal forms for the summary counts -/

theorem grossCount_eq (rs : List Record) (k : String) :
    grossCount rs k = rs.countP fun r => isContribution r && r.teamMember == k := by
  unfold grossCount
  rw [← List.countP_eq_length_filter, List.countP_filter]
  exact countP_congr_mem fun a _ => Bool.and_comm ..

theorem exemptCount_eq (rs : List Record) (k : String) :
    exemptCount rs k
      = rs.countP fun r => (isContribution r && hasExemptTag r.tags) && r.teamMember == k := by
  unfold exemptCount
  rw [← List.countP_eq_length_filter, List.countP_filter, List.countP_filter]
  exact countP_congr_mem fun a _ => by
    cases isContribution a <;> cases hasExemptTag a.tags <;> cases a.teamMember == k <;> rfl

theorem exemptCount_le_grossCount (rs : List Record) (k : String) :
    exemptCount rs k ≤ grossCount rs k := by
  rw [grossCount_eq, exemptCount_eq]
  refine List.countP_mono_left fun a _ h => ?_
  revert h
  cases isContribution a <;> cases hasExemptTag a.tags <;> cases a.teamMember == k <;> simp

theorem netCount_eq (rs : List Record) (k : String) :
    (grossCount rs k : Int) - (exemptCount rs k : Int)
      = (rs.countP fun r => netP r && r.teamMember == k : Nat) := by
  have hsplit := countP_split rs
    (fun r => isContribution r && r.teamMember == k) (fun r => hasExemptTag r.tags)
  have h1 : (rs.countP fun r => (isContribution r && r.teamMember == k) && hasExemptTag r.tags)
      = rs.countP fun r => (isContribution r && hasExemptTag r.tags) && r.teamMember == k :=
    countP_congr_mem fun a _ => by
      cases isContribution a <;> cases hasExemptTag a.tags <;> cases a.teamMember == k <;> rfl
  have h2 : (rs.countP fun r => (isContribution r && r.teamMember == k) && !hasExemptTag r.tags)
      = rs.countP fun r => netP r && r.teamMember == k :=
    countP_congr_mem fun a _ => by
      simp only [netP]
      cases isContribution a <;> cases hasExemptTag a.tags <;> cases a.teamMember == k <;> rfl
  rw [grossCount_eq, exemptCount_eq, ← h1, ← h2]
  omega

theorem summaryNetSum_eq (rs : List Record) :
    summaryNetSum (calculateContributionSummary rs ORIGINAL_CASE_TEAM)
      = ((rs.countP fun r => netP r && UCS_BANGALORE_TEAM_LOWER.contains r.teamMember : Nat)
          : Int) := by
  unfold summaryNetSum calculateContributionSummary
  rw [List.map_map]
  have h1 : ORIGINAL_CASE_TEAM.map
        (SummaryRow.net ∘ fun m =>
          { member := m
            gross := grossCount rs (strLower m)
            exempted := exemptCount rs (strLower m)
            net := (grossCount rs (strLower m) : Int) - (exemptCount rs (strLower m) : Int) })
      = ORIGINAL_CASE_TEAM.map fun m =>
          ((rs.countP fun r => netP r && r.teamMember == strLower m : Nat) : Int) :=
    List.map_congr_left fun m _ => netCount_eq rs (strLower m)
  rw [h1]
  have h3 : (ORIGINAL_CASE_TEAM.map fun m =>
        (rs.countP fun r => netP r && r.teamMember == strLower m : Nat))
      = UCS_BANGALORE_TEAM_LOWER.map fun k =>
          rs.countP fun r => netP r && r.teamMember == k := by
    rw [UCS_BANGALORE_TEAM_LOWER, List.map_map]; rfl
  have hnat : (ORIGINAL_CASE_TEAM.map fun m =>
        (rs.countP fun r => netP r && r.teamMember == strLower m : Nat)).sum
      = rs.countP fun r => netP r && UCS_BANGALORE_TEAM_LOWER.contains r.teamMember := by
    rw [h3]
    exact sum_group_sizes netP Record.teamMember UCS_BANGALORE_TEAM_LOWER (by decide) rs
  rw [← hnat, natListSumCast, List.map_map]
  rfl

theorem totalNet_eq (rs : List Record) (h : rs ≠ []) :
    totalNetContributions rs = ((rs.countP netP : Nat) : Int) := by
  unfold totalNetContributions
  rw [if_neg (by simpa [List.isEmpty_iff] using h)]
  rw [← List.countP_eq_length_filter, List.countP_filter]
  have hsplit := countP_split rs isContribution fun r => hasExemptTag r.tags
  have hc : (rs.countP fun r => hasExemptTag r.tags && isContribution r)
      = rs.countP fun r => isContribution r && hasExemptTag r.tags :=
    countP_congr_mem fun a _ => Bool.and_comm ..
  have hn : rs.countP netP = rs.countP fun r => isContribution r && !hasExemptTag r.tags :=
    countP_congr_mem fun a _ => rfl
  rw [hc, hn]
  omega

theorem ucsNetOf_eq (rs : List Record) :
    ucsNetOf rs
      = ((rs.countP fun r =>
            (netP r && UCS_BANGALORE_TEAM_LOWER.contains r.teamMember)
              && (r.team == "UCS Bangalore") : Nat) : Int) := by
  unfold ucsNetOf
  rw [summaryNetSum_eq]
  congr 1
  exact List.countP_filter ..

theorem ucsNetOf_nonneg (rs : List Record) : 0 ≤ ucsNetOf rs := by
  rw [ucsNetOf_eq]; exact Int.natCast_nonneg _

theorem ucsNetOf_le_totalNet (rs : List Record) (h : rs ≠ []) :
    ucsNetOf rs ≤ totalNetContributions rs := by
  rw [ucsNetOf_eq, totalNet_eq rs h]
  have : (rs.countP fun r =>
        (netP r && UCS_BANGALORE_TEAM_LOWER.contains r.teamMember)
          && (r.team == "UCS Bangalore")) ≤ rs.countP netP := by
    refine List.countP_mono_left fun a _ hx => ?_
    revert hx
    cases netP a <;> simp
  exact_mod_cast this

/-! ### Bounds for the ISO week computation -/

theorem isoWeekday_bounds (d : Date) : 1 ≤ isoWeekday d ∧ isoWeekday d ≤ 7 := by
  unfold isoWeekday
  have := Nat.mod_lt (rataDie d - 1) (y := 7) (by omega)
  omega

theorem dayOfYear_bounds (d : Date) (hd : d.valid) :
    1 ≤ dayOfYear d ∧ dayOfYear d ≤ 366 := by
  obtain ⟨y, m, day⟩ := d
  simp only [Date.valid] at hd
  obtain ⟨hy, hm1, hm2, hday1, hday2⟩ := hd
  simp only [dayOfYear] at *
  interval_cases m <;> cases hL : isLeapYear y <;>
    simp [daysBeforeMonth, daysInMonth, hL] at hday2 ⊢ <;> omega

theorem isoWeeksInYear_eq (y : Nat) : isoWeeksInYear y = 52 ∨ isoWeeksInYear y = 53 := by
  unfold isoWeeksInYear
  split
  · exact Or.inr rfl
  · exact Or.inl rfl

theorem isoWeekPair_week_bounds (d : Date) (hd : d.valid) :
    1 ≤ (isoWeekPair d).2 ∧ (isoWeekPair d).2 ≤ 53 := by
  have hdoy := dayOfYear_bounds d hd
  have hwd := isoWeekday_bounds d
  have h53 : (375 : Nat) / 7 = 53 := by norm_num
  have hq : (dayOfYear d + 10 - isoWeekday d) / 7 ≤ 53 := by
    have h375 : dayOfYear d + 10 - isoWeekday d ≤ 375 := by omega
    have hdd : (dayOfYear d + 10 - isoWeekday d) / 7 ≤ 375 / 7 :=
      Nat.div_le_div_right h375
    omega
  unfold isoWeekPair
  split_ifs with h0 h1
  · dsimp only
    rcases isoWeeksInYear_eq (d.year - 1) with h | h <;> rw [h] <;> omega
  · dsimp only
    omega
  · dsimp only
    omega

theorem zfill2_two_digit : ∀ w : Nat, w < 54 → (zfill2 w).length = 2 := by decide

/-! ### The claims -/

/-- Claim C1: `counts_as_net` holds iff the record's type is one of the three
contributing types (WO, PTR, TR) and no exemption keyword is a substring of
its tags; a record of a non-contributing type counts 0 toward both gross and
net regardless of its tags. -/
theorem claim_C1 (r : Record) :
    (netFlag r = 1 ↔
      r.recType ∈ CONTRIBUTION_RECORD_TYPES
        ∧ ¬ ∃ k ∈ EXEMPTION_KEYWORDS, k.data <:+: r.tags.data)
    ∧ (r.recType ∉ CONTRIBUTION_RECORD_TYPES →
        netFlag r = 0 ∧ ∀ k, grossCount [r] k = 0) := by
  constructor
  · unfold netFlag
    constructor
    · intro h
      have hc : (isContribution r && !hasExemptTag r.tags) = true := by
        by_contra hcon
        simp [hcon] at h
      rw [Bool.and_eq_true] at hc
      refine ⟨(isContribution_iff r).mp hc.1, fun hex => ?_⟩
      have := (hasExemptTag_iff r.tags).mpr hex
      simp [this] at hc
    · rintro ⟨hmem, hnex⟩
      have h1 : isContribution r = true := (isContribution_iff r).mpr hmem
      have h2 : hasExemptTag r.tags = false := by
        by_contra hcon
        exact hnex ((hasExemptTag_iff r.tags).mp (by simpa using hcon))
      simp [h1, h2]
  · intro hnm
    have h1 : isContribution r = false := by
      by_contra hcon
      exact hnm ((isContribution_iff r).mp (by simpa using hcon))
    refine ⟨by simp [netFlag, h1], fun k => ?_⟩
    simp [grossCount, h1]

theorem claim_C1_witness : netFlag recB = 0 ∧ grossCount [recB] "pranam m" = 0 :=
  ⟨((claim_C1 recB).2 (by decide)).1, ((claim_C1 recB).2 (by decide)).2 "pranam m"⟩

/-- Claim C2: every row of a contribution summary satisfies
net = gross − exempted and exempted ≤ gross, so net is never negative. -/
theorem claim_C2 (rs : List Record) (teamMembers : List String) (row : SummaryRow)
    (h : row ∈ calculateContributionSummary rs teamMembers) :
    row.net = (row.gross : Int) - (row.exempted : Int)
      ∧ row.exempted ≤ row.gross ∧ 0 ≤ row.net := by
  obtain ⟨m, hm, rfl⟩ := List.mem_map.mp h
  refine ⟨rfl, exemptCount_le_grossCount rs (strLower m), ?_⟩
  have hle := exemptCount_le_grossCount rs (strLower m)
  show (0 : Int) ≤ (grossCount rs (strLower m) : Int) - (exemptCount rs (strLower m) : Int)
  omega

theorem claim_C2_witness : (0 : Int) ≤ (SummaryRow.mk "Pranam M" 1 0 1).net :=
  (claim_C2 [recA] ["Pranam M"] ⟨"Pranam M", 1, 0, 1⟩ (by decide)).2.2

/-- Claim C3: the roster-joined summary has exactly one row per canonical
roster member, in display case (the roster is duplicate-free); a member with
no matching records gets gross = exempted = net = 0; and every row's member
is a roster member, so non-roster assignees never appear. -/
theorem claim_C3 (rs : List Record) :
    (calculateContributionSummary rs ORIGINAL_CASE_TEAM).map SummaryRow.member
        = ORIGINAL_CASE_TEAM
    ∧ ORIGINAL_CASE_TEAM.Nodup
    ∧ (∀ row ∈ calculateContributionSummary rs ORIGINAL_CASE_TEAM,
        row.member ∈ ORIGINAL_CASE_TEAM)
    ∧ ∀ m ∈ ORIGINAL_CASE_TEAM, (∀ r ∈ rs, r.teamMember ≠ strLower m) →
        ({ member := m, gross := 0, exempted := 0, net := 0 } : SummaryRow)
          ∈ calculateContributionSummary rs ORIGINAL_CASE_TEAM := by
  refine ⟨?_, by decide, ?_, ?_⟩
  · unfold calculateContributionSummary
    rw [List.map_map]
    show ORIGINAL_CASE_TEAM.map (fun m => m) = ORIGINAL_CASE_TEAM
    simp
  · intro row hrow
    obtain ⟨m, hm, rfl⟩ := List.mem_map.mp hrow
    exact hm
  · intro m hm hnone
    refine List.mem_map.mpr ⟨m, hm, ?_⟩
    have hg : grossCount rs (strLower m) = 0 := by
      rw [grossCount_eq]
      refine List.countP_eq_zero.mpr fun a ha hcontra => ?_
      rw [Bool.and_eq_true] at hcontra
      exact hnone a ha (by simpa using hcontra.2)
    have he : exemptCount rs (strLower m) = 0 := by
      rw [exemptCount_eq]
      refine List.countP_eq_zero.mpr fun a ha hcontra => ?_
      rw [Bool.and_eq_true] at hcontra
      exact hnone a ha (by simpa using hcontra.2)
    rw [hg, he]
    simp

theorem claim_C3_witness :
    ({ member := "Pranam M", gross := 0, exempted := 0, net := 0 } : SummaryRow)
      ∈ calculateContributionSummary [] ORIGINAL_CASE_TEAM :=
  (claim_C3 []).2.2.2 "Pranam M" (by decide) (by simp)

/-- Claim C4: for every data slice the share equals
roster_net / total_net * 100 when total_net > 0, in which case it lies in
[0, 100] (the roster's net never exceeds the whole population's net);
when total_net = 0 the share is 0 and no division occurs. -/
theorem claim_C4 (rs : List Record) :
    (0 < totalNetContributions rs →
      ucsShare (ucsNetOf rs) (totalNetContributions rs)
          = (ucsNetOf rs : ℚ) / (totalNetContributions rs : ℚ) * 100
        ∧ 0 ≤ ucsShare (ucsNetOf rs) (totalNetContributions rs)
        ∧ ucsShare (ucsNetOf rs) (totalNetContributions rs) ≤ 100)
    ∧ (totalNetContributions rs = 0 →
        ucsShare (ucsNetOf rs) (totalNetContributions rs) = 0) := by
  constructor
  · intro hpos
    have hne : rs ≠ [] := by
      intro h
      rw [h] at hpos
      simp [totalNetContributions] at hpos
    have hle := ucsNetOf_le_totalNet rs hne
    have hnn := ucsNetOf_nonneg rs
    have heq : ucsShare (ucsNetOf rs) (totalNetContributions rs)
        = (ucsNetOf rs : ℚ) / (totalNetContributions rs : ℚ) * 100 := by
      unfold ucsShare
      rw [if_pos hpos]
    have h1 : (0 : ℚ) ≤ (ucsNetOf rs : ℚ) := by exact_mod_cast hnn
    have h2 : (0 : ℚ) < (totalNetContributions rs : ℚ) := by exact_mod_cast hpos
    refine ⟨heq, ?_, ?_⟩
    · rw [heq]
      exact mul_nonneg (div_nonneg h1 (le_of_lt h2)) (by norm_num)
    · rw [heq]
      have h3 : (ucsNetOf rs : ℚ) / (totalNetContributions rs : ℚ) ≤ 1 := by
        rw [div_le_one h2]
        exact_mod_cast hle
      have h4 := mul_le_mul_of_nonneg_right h3 (show (0 : ℚ) ≤ 100 by norm_num)
      simpa using h4
  · intro h0
    unfold ucsShare
    rw [h0]
    norm_num

theorem claim_C4_witness :
    0 < totalNetContributions [recA]
      ∧ ucsShare (ucsNetOf [recA]) (totalNetContributions [recA]) ≤ 100 :=
  ⟨by decide, ((claim_C4 [recA]).1 (by decide)).2.2⟩

/-- Claim C5: the columns of the member × ISO-week pivot are ordered by the
Monday anchor of each ISO week (chronological order); in particular the
year_weeks 2024-W52, 2025-W01, 2024-W05 come out as
2024-W05, 2024-W52, 2025-W01. -/
theorem claim_C5 (rs : List Record) (y : Nat) :
    List.Pairwise (fun a b => weekAnchor a ≤ weekAnchor b) (weeklyMatrixColumns rs y)
    ∧ weeklyMatrixColumns c5sample 2024 = ["2024-W05", "2024-W52", "2025-W01"] := by
  constructor
  · unfold weeklyMatrixColumns
    haveI hT : IsTotal String fun a b => weekAnchor a ≤ weekAnchor b :=
      ⟨fun a b => Nat.le_total _ _⟩
    haveI hTr : IsTrans String fun a b => weekAnchor a ≤ weekAnchor b :=
      ⟨fun a b c hab hbc => Nat.le_trans hab hbc⟩
    exact List.sorted_insertionSort _ _
  · decide

/-- Claim C6: the week bucket key is derived from the end timestamp alone,
has the form iso-year ++ "-W" ++ two-digit zero-padded iso-week, the ISO
year in the key can differ from the calendar year of the end date
(2024-12-30 is keyed "2025-W01"), and each record gets exactly one week key
and one month key. -/
theorem claim_C6 (d : Date) (hd : d.valid) :
    (∃ y w : Nat, 1 ≤ w ∧ w ≤ 53 ∧ (zfill2 w).length = 2
        ∧ yearWeekKey d = toString y ++ "-W" ++ zfill2 w)
    ∧ yearWeekKey ⟨2024, 12, 30⟩ = "2025-W01"
    ∧ (isoWeekPair ⟨2024, 12, 30⟩).1 = 2025
    ∧ (Date.mk 2024 12 30).year = 2024
    ∧ ∀ row s e, (mkRecord row s e).yearWeek = yearWeekKey e
        ∧ (mkRecord row s e).month = monthKey e := by
  refine ⟨?_, by decide, by decide, rfl, fun row s e => ⟨rfl, rfl⟩⟩
  obtain ⟨h1, h2⟩ := isoWeekPair_week_bounds d hd
  exact ⟨(isoWeekPair d).1, (isoWeekPair d).2, h1, h2, zfill2_two_digit _ (by omega), rfl⟩

theorem claim_C6_witness :
    (Date.mk 2024 1 15).valid ∧ yearWeekKey ⟨2024, 12, 30⟩ = "2025-W01" :=
  ⟨by decide, (claim_C6 ⟨2024, 1, 15⟩ (by decide)).2.1⟩

theorem processRow_none (row : RawRow)
    (hbad : row.startDate = none ∨ row.endDate = none) : processRow row = none := by
  unfold processRow
  rcases hs : row.startDate with _ | s <;> rcases he : row.endDate with _ | e <;> simp_all

/-- Claim C7: a row whose start or end timestamp failed to parse is dropped
entirely (no record, no error); every surviving row has case-folded
assignee and tags, with missing assignee replaced by "unassigned" and
missing tags by "". -/
theorem claim_C7 (rows : List RawRow) (row : RawRow)
    (hbad : row.startDate = none ∨ row.endDate = none) :
    (∀ pre post, rows = pre ++ row :: post → processRows rows = processRows (pre ++ post))
    ∧ processRows rows
        = ((rows.filter fun r => r.startDate.isSome && r.endDate.isSome).map
            fun r => mkRecord r (r.startDate.getD ⟨1, 1, 1⟩) (r.endDate.getD ⟨1, 1, 1⟩))
    ∧ ∀ rec ∈ processRows rows, ∃ r ∈ rows,
        r.startDate.isSome ∧ r.endDate.isSome
        ∧ rec.teamMember = (r.assignee.map strLower).getD "unassigned"
        ∧ rec.tags = (r.tags.map strLower).getD "" := by
  refine ⟨?_, ?_, ?_⟩
  · intro pre post hsplit
    subst hsplit
    unfold processRows
    rw [List.filterMap_append, List.filterMap_append]
    congr 1
    simp [List.filterMap_cons, processRow_none row hbad]
  · clear hbad
    induction rows with
    | nil => rfl
    | cons r t ih =>
        rcases hs : r.startDate with _ | s <;> rcases he : r.endDate with _ | e <;>
          simp [processRows, List.filterMap_cons, List.filter_cons, processRow, hs, he] <;>
          simpa [processRows] using ih
  · intro rec hrec
    obtain ⟨r, hr, heq⟩ := List.mem_filterMap.mp hrec
    unfold processRow at heq
    rcases hs : r.startDate with _ | s <;> rcases he : r.endDate with _ | e <;>
      rw [hs, he] at heq <;> simp only [] at heq
    · exact absurd heq (by simp)
    · exact absurd heq (by simp)
    · exact absurd heq (by simp)
    · obtain rfl := Option.some.inj heq
      exact ⟨r, hr, by simp [hs], by simp [he], rfl, rfl⟩

theorem claim_C7_witness : processRows [blankRow] = processRows [] := by
  have h := (claim_C7 [blankRow] blankRow (Or.inl rfl)).1 [] [] rfl
  simpa using h

/-- Claim C8: if the whole payload fails to parse, exactly one error is
reported and the result is empty (no partially parsed subset); an empty
input yields an empty result. -/
theorem claim_C8 (parseCsv : String → Except String (List RawRow)) (raw e : String)
    (hraw : raw ≠ "") (herr : parseCsv raw = Except.error e) :
    loadAndProcessData parseCsv raw = (["Error parsing data: " ++ e], [])
    ∧ loadAndProcessData parseCsv "" = ([], []) := by
  constructor
  · unfold loadAndProcessData
    rw [if_neg hraw, herr]
  · unfold loadAndProcessData
    rw [if_pos rfl]

theorem claim_C8_witness :
    loadAndProcessData (fun _ => Except.error "bad") "x" = (["Error parsing data: bad"], []) :=
  (claim_C8 (fun _ => Except.error "bad") "x" "bad" (by decide) rfl).1

/-- Claim C9, counterexample: a month whose fetch succeeds with empty text
makes the combined fetch report overall failure, so "returns no data iff
every individual month fails" is false as stated. -/
theorem claim_C9_counterexample :
    fetchMonthsCsv (fun _ _ => some "") 2025 [1] = none
    ∧ (fun _ _ => (some "" : Option String)) 2025 1 ≠ none :=
  ⟨rfl, by simp⟩

theorem fetchLoop_eq (fetchMonth : Nat → Nat → Option String) (year : Nat) :
    ∀ (months : List Nat) (parts : List String),
      fetchLoop fetchMonth year months parts
        = parts ++ months.filterMap fun m => keepTruthy (fetchMonth year m)
  | [], parts => by simp [fetchLoop]
  | m :: ms, parts => by
      have ih := fetchLoop_eq fetchMonth year ms
      rcases hf : fetchMonth year m with _ | txt
      · simp [fetchLoop, hf, keepTruthy, ih]
      · by_cases htxt : txt = ""
        · simp [fetchLoop, hf, htxt, keepTruthy, ih]
        · simp [fetchLoop, hf, htxt, keepTruthy, ih]

/-- Claim C9, amended: each month is attempted independently and the result
is the newline-join, in requested order, of exactly the months whose
fetches returned non-empty text; the combined fetch returns no data iff
every month's fetch failed or returned empty text — so one failing month
never discards another month's data. -/
theorem claim_C9_amended (fetchMonth : Nat → Nat → Option String) (year : Nat)
    (months : List Nat) :
    (fetchMonthsCsv fetchMonth year months
        = if (months.filterMap fun m => keepTruthy (fetchMonth year m)) = [] then none
          else some (String.intercalate "\n"
            (months.filterMap fun m => keepTruthy (fetchMonth year m))))
    ∧ (fetchMonthsCsv fetchMonth year months = none ↔
        ∀ m ∈ months, fetchMonth year m = none ∨ fetchMonth year m = some "") := by
  have hloop := fetchLoop_eq fetchMonth year months []
  have hmain : fetchMonthsCsv fetchMonth year months
      = if (months.filterMap fun m => keepTruthy (fetchMonth year m)) = [] then none
        else some (String.intercalate "\n"
          (months.filterMap fun m => keepTruthy (fetchMonth year m))) := by
    unfold fetchMonthsCsv
    rw [hloop, List.nil_append]
  refine ⟨hmain, ?_⟩
  rw [hmain]
  constructor
  · intro h
    by_cases hp : (months.filterMap fun m => keepTruthy (fetchMonth year m)) = []
    · rw [List.filterMap_eq_nil_iff] at hp
      intro m hm
      have hk := hp m hm
      rcases hf : fetchMonth year m with _ | txt
      · exact Or.inl rfl
      · rw [hf] at hk
        simp only [keepTruthy] at hk
        by_cases htxt : txt = ""
        · exact Or.inr (by rw [htxt])
        · rw [if_neg htxt] at hk
          exact absurd hk (by simp)
    · rw [if_neg hp] at h
      exact absurd h (by simp)
  · intro hall
    have hp : (months.filterMap fun m => keepTruthy (fetchMonth year m)) = [] := by
      rw [List.filterMap_eq_nil_iff]
      intro m hm
      rcases hall m hm with h | h <;> simp [keepTruthy, h]
    rw [if_pos hp]

theorem claim_C9_witness :
    fetchMonthsCsv (fun _ m => if m = 1 then some "June data" else none) 2024 [1, 2]
      = some "June data" := by
  have h := (claim_C9_amended (fun _ m => if m = 1 then some "June data" else none)
    2024 [1, 2]).1
  exact h.trans rfl

/-- Claim C10: appending a fetch (replace unchecked) yields the
concatenation of old and new rows with duplicates removed across the whole
concatenation; duplicates already inside the old snapshot are collapsed
too, so appending can remove rows that were present before. -/
theorem claim_C10 (old new : List Record) :
    (appendFetch old new).Nodup
    ∧ (∀ r : Record, r ∈ appendFetch old new ↔ r ∈ old ++ new)
    ∧ appendFetch [recA, recA] [recB] = [recA, recB]
    ∧ [recA, recA].count recA = 2
    ∧ (appendFetch [recA, recA] [recB]).count recA = 1 :=
  ⟨nodup_dropDups _, fun r => mem_dropDups r _, by decide, by decide, by decide⟩

theorem claim_C10_witness : (appendFetch [recA] [recB]).Nodup :=
  (claim_C10 [recA] [recB]).1

end PerfDash
